import Mathlib

/-!
# Verification of the macrodyne drawing-annotation server

Shallow embedding of the core logic of `src/server.py`: the span
classifier's letter check, row-density suppression, the grouping and
deduplication passes, the tolerance parser, the balloon placer, and the
revision store.  Coordinates are modelled as rationals, document bytes as
`List Nat`, regex matching as hand-written leftmost-search parsers faithful
to the patterns in the source.
-/

namespace Macrodyne

/-! ## Revision store (`save_pdf_snapshot`, `undo_pdf`) -/

/-- Opaque document bytes (a snapshot of `ballooned.pdf`). -/
abbrev Bytes := List Nat

/-- The mutable revision state: `PDF_HISTORY` (oldest first, newest last)
together with the current content of `ballooned.pdf` on disk. -/
structure RevState where
  history : List Bytes
  doc : Bytes
deriving DecidableEq

/-- `save_pdf_snapshot`: append the current document bytes to `PDF_HISTORY`;
if the history then exceeds 50 entries, evict the oldest (`pop(0)`). -/
def save_pdf_snapshot (s : RevState) : RevState :=
  let h := s.history ++ [s.doc]
  { s with history := if h.length > 50 then h.drop 1 else h }

/-- `undo_pdf`: with fewer than two snapshots, answer failure (HTTP 400,
the spec's `StateError`) and leave the state untouched; otherwise pop the
newest snapshot and write the new last snapshot back to `ballooned.pdf`.
The `Bool` is `true` on success. -/
def undo_pdf (s : RevState) : Bool × RevState :=
  if s.history.length < 2 then (false, s)
  else
    let h := s.history.dropLast
    (true, ⟨h, h.getLastD s.doc⟩)

theorem undo_pdf_short {s : RevState} (h : s.history.length < 2) :
    undo_pdf s = (false, s) := by
  simp [undo_pdf, h]

theorem undo_pdf_long (pre : List Bytes) (a b : Bytes) (doc : Bytes) :
    undo_pdf ⟨pre ++ [a, b], doc⟩ = (true, ⟨pre ++ [a], a⟩) := by
  have hlen : (pre ++ [a, b]).length = pre.length + 2 := by simp
  have hlt : ¬ (pre ++ [a, b]).length < 2 := by omega
  have hdrop : (pre ++ [a, b]).dropLast = pre ++ [a] := by
    have : pre ++ [a, b] = (pre ++ [a]) ++ [b] := by simp
    rw [this, List.dropLast_concat]
  have hlast : (pre ++ [a]).getLastD doc = a := by
    rcases pre with _ | ⟨c, t⟩
    · rfl
    · simp [List.getLastD, List.getLast?_concat]
  simp only [undo_pdf, hlt, if_false, hdrop, hlast]

/-- C1: undo semantics of the Revision Store.  With fewer than two
snapshots `undo_pdf` fails (the spec's `StateError`) and leaves the state
unchanged; with history `S1..Sn` (`n ≥ 2`, written `pre ++ [a, b]` so that
`a = S(n-1)` and `b = Sn`) one undo removes the newest snapshot, restores
the document bytes to `S(n-1)` and leaves exactly `n-1` snapshots. -/
theorem c1_undo_semantics (s : RevState) :
    (s.history.length < 2 → undo_pdf s = (false, s)) ∧
    (∀ pre a b, s.history = pre ++ [a, b] →
      undo_pdf s = (true, ⟨pre ++ [a], a⟩)) := by
  constructor
  · exact fun h => undo_pdf_short h
  · intro pre a b hh
    rcases s with ⟨hist, doc⟩
    simp only at hh
    subst hh
    exact undo_pdf_long pre a b doc

/-- Witness for C1: after snapshots `[1], [2], [3]` one undo restores
`[2]` and leaves two snapshots; with one snapshot undo fails unchanged. -/
theorem c1_undo_semantics_witness :
    undo_pdf ⟨[[1], [2], [3]], [3]⟩ = (true, ⟨[[1], [2]], [2]⟩) ∧
    undo_pdf ⟨[[1]], [1]⟩ = (false, ⟨[[1]], [1]⟩) :=
  ⟨(c1_undo_semantics ⟨[[1], [2], [3]], [3]⟩).2 [[1]] [2] [3] rfl,
   (c1_undo_semantics ⟨[[1]], [1]⟩).1 (by decide)⟩

/-! ## Span classifier: the letter check (`has_invalid_letters`)

The source uppercases the text, then **sequentially** replaces each entry
of its allow-list (`TYP, REF, R, Ø, DIA, MIN, MAX, TO, UNC, UNF, THRU`,
in that order) by the empty string, then deletes every character of the
class digits, whitespace, dot, hyphen, slash, inch mark, degree mark,
`x`, `X`, and rejects iff a character `A`–`Z` remains.  Note the
list in the code has no `UNEF` and no `FLAT`, and `R` is replaced before
`THRU` is tried, so `THRU` has become `THU` by then. -/

/-- Python `str.upper` restricted to the characters that occur here:
lowercase ASCII letters map up, `ø` maps to `Ø`, all else is fixed. -/
def upperChar (c : Char) : Char :=
  if c = 'ø' then 'Ø'
  else if 'a' ≤ c ∧ c ≤ 'z' then Char.ofNat (c.toNat - 32)
  else c

/-- Uppercasing a string, as a character list. -/
def pyUpper (s : List Char) : List Char := s.map upperChar

/-- One pass of Python `str.replace(pat, "")`: delete the leftmost
occurrences of `pat`, left to right, non-overlapping.  Fuel-indexed so the
definition is structural (`fuel` starts at the list's length). -/
def replaceAllAux (pat : List Char) : Nat → List Char → List Char
  | _, [] => []
  | 0, s => s
  | fuel + 1, c :: rest =>
    if pat ≠ [] ∧ pat.isPrefixOf (c :: rest) then
      replaceAllAux pat fuel ((c :: rest).drop pat.length)
    else
      c :: replaceAllAux pat fuel rest

/-- Python `s.replace(pat, "")`. -/
def replaceAll (pat s : List Char) : List Char :=
  replaceAllAux pat s.length s

/-- The allow-list exactly as written in `has_invalid_letters`. -/
def allowedAbbrevs : List (List Char) :=
  ["TYP", "REF", "R", "Ø", "DIA", "MIN", "MAX", "TO", "UNC", "UNF",
   "THRU"].map String.toList

/-- Characters deleted by the `re.sub` character class in the source:
digits, whitespace, dot, hyphen, slash, inch mark, degree mark, x, X. -/
def isStrippedChar (c : Char) : Bool :=
  c.isDigit || c = ' ' || c = '\t' || c = '\n' || c = '\r' ||
  c = '\x0b' || c = '\x0c' || c = '.' || c = '-' || c = '/' ||
  c = '"' || c = '°' || c = 'x' || c = 'X'

/-- Is `c` an uppercase ASCII letter (`re.search(r"[A-Z]", t)`)? -/
def isUpperAZ (c : Char) : Bool := 'A' ≤ c && c ≤ 'Z'

/-- The sequential strip of the allow-list, in source order. -/
def stripAllowed (t : List Char) : List Char :=
  allowedAbbrevs.foldl (fun acc a => replaceAll a acc) t

/-- `has_invalid_letters` from the source: uppercase, strip the allow-list
sequentially, delete digits/separators/degree marks, reject iff a letter
remains. -/
def has_invalid_letters (text : List Char) : Bool :=
  ((stripAllowed (pyUpper text)).filter (fun c => !isStrippedChar c)).any
    isUpperAZ

theorem replaceAllAux_sublist (pat : List Char) :
    ∀ fuel s, List.Sublist (replaceAllAux pat fuel s) s := by
  intro fuel
  induction fuel with
  | zero =>
    intro s
    cases s with
    | nil => exact List.Sublist.refl _
    | cons c rest => exact List.Sublist.refl _
  | succ n ih =>
    intro s
    cases s with
    | nil => exact List.Sublist.refl _
    | cons c rest =>
      rw [replaceAllAux]
      split
      · exact (ih _).trans (List.drop_sublist _ _)
      · exact (ih rest).cons₂ c

theorem replaceAll_sublist (pat s : List Char) :
    List.Sublist (replaceAll pat s) s :=
  replaceAllAux_sublist pat s.length s

theorem foldl_replaceAll_sublist (pats : List (List Char)) :
    ∀ s, List.Sublist (pats.foldl (fun acc a => replaceAll a acc) s) s := by
  induction pats with
  | nil => intro s; exact List.Sublist.refl s
  | cons p ps ih =>
    intro s
    exact (ih (replaceAll p s)).trans (replaceAll_sublist p s)

/-- The characters a pure dimension token may consist of: digits,
whitespace, the separators `. - / "`, the degree mark, and `x`/`X`. -/
def dimChars : List Char :=
  ['0', '1', '2', '3', '4', '5', '6', '7', '8', '9', ' ', '\t',
   '.', '-', '/', '"', '°', 'x', 'X']

theorem dim_text_not_rejected (t : List Char) (h : ∀ c ∈ t, c ∈ dimChars) :
    has_invalid_letters t = false := by
  have hstrip : ∀ c ∈ dimChars, isStrippedChar (upperChar c) = true := by
    decide
  have hup : ∀ d ∈ pyUpper t, isStrippedChar d = true := by
    intro d hd
    rcases List.mem_map.mp hd with ⟨c, hc, rfl⟩
    exact hstrip c (h c hc)
  have hsub := foldl_replaceAll_sublist allowedAbbrevs (pyUpper t)
  have hall : ∀ d ∈ stripAllowed (pyUpper t), isStrippedChar d = true :=
    fun d hd => hup d (hsub.subset hd)
  have hfil :
      (stripAllowed (pyUpper t)).filter (fun c => !isStrippedChar c) = [] := by
    rw [List.filter_eq_nil_iff]
    intro a ha
    simp [hall a ha]
  rw [has_invalid_letters, hfil]
  rfl

/-- C2 counterexample: the claim says a span whose text is dimension
tokens plus the allow-listed abbreviation `THRU` is not rejected, but the
code replaces `R` before trying `THRU`, leaving `THU`, so `0.25 THRU` is
rejected by the letter check. -/
theorem c2_letter_check_counterexample :
    has_invalid_letters ("0.25 THRU".toList) = true := by decide

/-- C2 (amended): the code's allow-list is `TYP, REF, R, Ø, DIA, MIN, MAX,
TO, UNC, UNF, THRU` (no `UNEF`, no `FLAT`), applied as sequential
substring replacement in that order, so `THRU` is never stripped intact
(`R` is removed first).  Text made only of digits, whitespace, separators,
degree marks and `x`/`X` is never rejected; `1/4-20 UNEF` and `5.00 FLAT`
are rejected; texts using effective abbreviations such as `TYP`, `UNC`,
`MAX` pass. -/
theorem c2_letter_check_amended :
    (∀ t : List Char, (∀ c ∈ t, c ∈ dimChars) →
      has_invalid_letters t = false) ∧
    has_invalid_letters ("1/4-20 UNEF".toList) = true ∧
    has_invalid_letters ("5.00 FLAT".toList) = true ∧
    has_invalid_letters ("0.25 TYP".toList) = false ∧
    has_invalid_letters ("1/4-20 UNC".toList) = false ∧
    has_invalid_letters ("5.00 MAX".toList) = false :=
  ⟨dim_text_not_rejected, by decide, by decide, by decide, by decide,
   by decide⟩

/-- Witness for C2 (amended): a concrete all-dimension-character text is
accepted by the letter check. -/
theorem c2_letter_check_amended_witness :
    has_invalid_letters ("0.25 x 1.50".toList) = false :=
  c2_letter_check_amended.1 ("0.25 x 1.50".toList) (by decide)


/-! ## Dimension candidates, row-density suppression (`extract_numbers`) -/

/-- A `DimensionCandidate` dict as built in `extract_numbers`: page index,
cleaned text, anchor `x` (left edge), rounded y-center, table-zone flag. -/
structure Dim where
  page : Nat
  value : String
  x : ℚ
  y : ℚ
  is_table : Bool
deriving DecidableEq

/-- `TABLE_ROW_THRESHOLD` from the configuration block. -/
def TABLE_ROW_THRESHOLD : Nat := 4

/-- `row_hits[yc]` at the end of one page's span loop: how many `isTable`
spans of this page share the rounded y-center `y`. -/
def tableCountAt (l : List Dim) (y : ℚ) : Nat :=
  (l.filter (fun s => s.is_table && s.y == y)).length

/-- Row-density suppression (tail of the per-page loop of
`extract_numbers`): a span of the page is kept unless it is an `isTable`
span whose y-center is shared by at least `TABLE_ROW_THRESHOLD` `isTable`
spans (`dense_rows`). -/
def suppressDenseRows (l : List Dim) : List Dim :=
  l.filter (fun s =>
    !(s.is_table && decide (TABLE_ROW_THRESHOLD ≤ tableCountAt l s.y)))

/-- C5: row-density suppression.  If at least 4 `isTable` candidates of a
page share one rounded y-center, every `isTable` candidate at that y is
dropped while every non-table candidate at that y survives; with exactly
3 `isTable` candidates at that y, everything at that y is retained. -/
theorem c5_row_density (l : List Dim) (y : ℚ) :
    (TABLE_ROW_THRESHOLD ≤ tableCountAt l y →
      (∀ s ∈ suppressDenseRows l, s.y = y → s.is_table = false) ∧
      (∀ s ∈ l, s.y = y → s.is_table = false → s ∈ suppressDenseRows l)) ∧
    (tableCountAt l y = 3 →
      ∀ s ∈ l, s.y = y → s ∈ suppressDenseRows l) := by
  constructor
  · intro hge
    constructor
    · intro s hs hy
      rcases List.mem_filter.mp hs with ⟨_, hpred⟩
      subst hy
      cases htb : s.is_table with
      | false => rfl
      | true =>
        exfalso
        simp only [htb, Bool.true_and, Bool.not_eq_true',
          decide_eq_false_iff_not] at hpred
        exact hpred hge
    · intro s hs hy htb
      refine List.mem_filter.mpr ⟨hs, ?_⟩
      simp [htb]
  · intro h3 s hs hy
    refine List.mem_filter.mpr ⟨hs, ?_⟩
    subst hy
    simp [h3, TABLE_ROW_THRESHOLD]

/-- A synthetic page row of four `isTable` candidates at `y = 10` plus one
non-table candidate at the same y. -/
def exRow4 : List Dim :=
  [⟨0, "1.00", 10, 10, true⟩, ⟨0, "2.00", 30, 10, true⟩,
   ⟨0, "3.00", 50, 10, true⟩, ⟨0, "4.00", 70, 10, true⟩,
   ⟨0, "5.00", 90, 10, false⟩]

/-- The same row with only three `isTable` candidates. -/
def exRow3 : List Dim :=
  [⟨0, "1.00", 10, 10, true⟩, ⟨0, "2.00", 30, 10, true⟩,
   ⟨0, "3.00", 50, 10, true⟩]

/-- Witness for C5: in the four-per-row page the non-table candidate at
the dense y survives; in the three-per-row page a table candidate is
retained. -/
theorem c5_row_density_witness :
    (⟨0, "5.00", 90, 10, false⟩ : Dim) ∈ suppressDenseRows exRow4 ∧
    (⟨0, "1.00", 10, 10, true⟩ : Dim) ∈ suppressDenseRows exRow3 :=
  ⟨((c5_row_density exRow4 10).1 (by decide)).2 _ (by decide) rfl rfl,
   (c5_row_density exRow3 10).2 (by decide) _ (by decide) rfl⟩

/-! ## Grouper / deduplicator

`group_close_dimensions` and `remove_vertical_close_duplicates` both sort
by a Python tuple key (stable sort) and then run an index loop with a
`used`/`consumed` set.  We model the loop as a recursion over the list of
items paired with their consumed flag; the fuel argument (initially the
list length, preserved by the marking helpers) keeps the recursion
structural. -/

/-- `VERTICAL_Y_TOLERANCE` from the configuration block. -/
def VERTICAL_Y_TOLERANCE : ℚ := 6

/-- `MERGE_X_THRESHOLD` from the configuration block. -/
def MERGE_X_THRESHOLD : ℚ := 10

/-- Stable insertion: `a` goes before the first `b` with `le a b`. -/
def insertLe (le : Dim → Dim → Bool) (a : Dim) : List Dim → List Dim
  | [] => [a]
  | b :: l => if le a b then a :: b :: l else b :: insertLe le a l

/-- Stable sort by the total preorder `le` (Python `sorted` with a tuple
key: equal keys keep their input order). -/
def sortLe (le : Dim → Dim → Bool) : List Dim → List Dim
  | [] => []
  | a :: l => insertLe le a (sortLe le l)

/-- The tuple key `(page, y, x)` of the horizontal-merge sort. -/
def leXKey (a b : Dim) : Bool :=
  decide (a.page < b.page) ||
  (a.page == b.page &&
    (decide (a.y < b.y) || (a.y == b.y && decide (a.x ≤ b.x))))

/-- The tuple key `(page, y)` of the duplicate-suppression sort. -/
def leYKey (a b : Dim) : Bool :=
  decide (a.page < b.page) || (a.page == b.page && decide (a.y ≤ b.y))

theorem insertLe_perm (le : Dim → Dim → Bool) (a : Dim) :
    ∀ l, List.Perm (insertLe le a l) (a :: l) := by
  intro l
  induction l with
  | nil => exact List.Perm.refl _
  | cons b t ih =>
    simp only [insertLe]
    split
    · exact List.Perm.refl _
    · exact (ih.cons b).trans (List.Perm.swap a b t)

theorem sortLe_perm (le : Dim → Dim → Bool) :
    ∀ l, List.Perm (sortLe le l) l := by
  intro l
  induction l with
  | nil => exact List.Perm.refl _
  | cons a t ih =>
    exact (insertLe_perm le a (sortLe le t)).trans (ih.cons a)

theorem mem_sortLe {le : Dim → Dim → Bool} {l : List Dim} {x : Dim} :
    x ∈ sortLe le l ↔ x ∈ l :=
  (sortLe_perm le l).mem_iff

/-- Does `b` qualify as a horizontal-merge partner of `a` (same page, y
within 3, neither flagged table, x gap in `(0, 20]`)?  This is the loop
body's filter in `group_close_dimensions`. -/
def hQual (a b : Dim) : Bool :=
  a.page == b.page && decide (|a.y - b.y| ≤ 3) &&
  !a.is_table && !b.is_table &&
  decide (0 < b.x - a.x) && decide (b.x - a.x ≤ 20)

/-- The inner scan of `group_close_dimensions`: find the qualifying
unconsumed partner of `a` with the strictly smallest gap (earliest wins on
ties), skipping consumed entries and breaking at the first page change.
Returns its position in the tail and the partner itself. -/
def bestScan (a : Dim) : List (Bool × Dim) → Option (Nat × Dim)
  | [] => none
  | (u, b) :: rest =>
    let later := (bestScan a rest).map (fun p => (p.1 + 1, p.2))
    if u then later
    else if a.page != b.page then none
    else if hQual a b then
      match later with
      | some (j, c) =>
        if c.x - a.x < b.x - a.x then some (j, c) else some (0, b)
      | none => some (0, b)
    else later

/-- Mark the entry at position `j` consumed. -/
def markAt : Nat → List (Bool × Dim) → List (Bool × Dim)
  | _, [] => []
  | 0, (_, b) :: rest => (true, b) :: rest
  | n + 1, fb :: rest => fb :: markAt n rest

/-- The merged entry built when a partner is found: newline-joined value,
mean x, `a`'s y, never a table entry. -/
def hMerge (a b : Dim) : Dim :=
  { page := a.page, value := a.value ++ "\n" ++ b.value,
    x := (a.x + b.x) / 2, y := a.y, is_table := false }

/-- The main loop of `group_close_dimensions` over the sorted, flagged
item list. -/
def hpassAux : Nat → List (Bool × Dim) → List Dim
  | 0, _ => []
  | _, [] => []
  | fuel + 1, (true, _) :: rest => hpassAux fuel rest
  | fuel + 1, (false, a) :: rest =>
    match bestScan a rest with
    | none => a :: hpassAux fuel rest
    | some (j, b) => hMerge a b :: hpassAux fuel (markAt j rest)

/-- `group_close_dimensions`: sort by `(page, y, x)`, then single-pass
horizontal merging where each item merges at most once. -/
def group_close_dimensions (items : List Dim) : List Dim :=
  let s := sortLe leXKey items
  hpassAux s.length (s.map (fun d => (false, d)))

/-- The inner marking loop of `remove_vertical_close_duplicates`: consume
every later same-page entry within y-tolerance 6 and x-distance 10,
breaking at the first page change. -/
def markDups (a : Dim) : List (Bool × Dim) → List (Bool × Dim)
  | [] => []
  | (u, b) :: rest =>
    if b.page != a.page then (u, b) :: rest
    else if decide (VERTICAL_Y_TOLERANCE < |b.y - a.y|) then
      (u, b) :: markDups a rest
    else if decide (|b.x - a.x| ≤ MERGE_X_THRESHOLD) then
      (true, b) :: markDups a rest
    else (u, b) :: markDups a rest

/-- The main loop of `remove_vertical_close_duplicates`: emit each
unconsumed item unchanged, consuming its near-duplicates ahead. -/
def rdupAux : Nat → List (Bool × Dim) → List Dim
  | 0, _ => []
  | _, [] => []
  | fuel + 1, (true, _) :: rest => rdupAux fuel rest
  | fuel + 1, (false, a) :: rest => a :: rdupAux fuel (markDups a rest)

/-- `remove_vertical_close_duplicates`: sort by `(page, y)` and keep only
the topmost of each cluster of near-duplicates. -/
def remove_vertical_close_duplicates (items : List Dim) : List Dim :=
  let s := sortLe leYKey items
  rdupAux s.length (s.map (fun d => (false, d)))

theorem bestScan_eq_none (a : Dim) :
    ∀ l : List (Bool × Dim), (∀ p ∈ l, hQual a p.2 = false) →
      bestScan a l = none := by
  intro l
  induction l with
  | nil => intro _; rfl
  | cons p rest ih =>
    intro h
    obtain ⟨u, b⟩ := p
    have hb : hQual a b = false := h (u, b) (List.mem_cons_self _ _)
    have hrest : bestScan a rest = none :=
      ih (fun q hq => h q (List.mem_cons_of_mem _ hq))
    simp only [bestScan, hrest, Option.map_none', hb]
    split <;> simp

theorem markAt_map_snd (j : Nat) :
    ∀ l : List (Bool × Dim), (markAt j l).map Prod.snd = l.map Prod.snd := by
  induction j with
  | zero =>
    intro l
    cases l with
    | nil => rfl
    | cons p rest => obtain ⟨u, b⟩ := p; rfl
  | succ n ih =>
    intro l
    cases l with
    | nil => rfl
    | cons p rest => simp [markAt, ih rest]

theorem hpassAux_id : ∀ l : List Dim,
    (∀ a ∈ l, ∀ b ∈ l, hQual a b = false) →
    hpassAux l.length (l.map (fun d => (false, d))) = l := by
  intro l
  induction l with
  | nil => intro _; rfl
  | cons a t ih =>
    intro h
    have hscan : bestScan a (t.map (fun d => (false, d))) = none := by
      apply bestScan_eq_none
      intro p hp
      rcases List.mem_map.mp hp with ⟨b, hb, rfl⟩
      exact h a (List.mem_cons_self _ _) b (List.mem_cons_of_mem _ hb)
    simp only [List.map_cons, List.length_cons, hpassAux, hscan]
    rw [ih (fun x hx y hy =>
      h x (List.mem_cons_of_mem _ hx) y (List.mem_cons_of_mem _ hy))]

/-- No pair of the list qualifies for a horizontal merge. -/
def hQualFree (l : List Dim) : Bool :=
  l.all (fun a => l.all (fun b => !hQual a b))

theorem group_close_id (l : List Dim) (h : hQualFree l = true) :
    group_close_dimensions l = sortLe leXKey l := by
  have h' : ∀ a ∈ l, ∀ b ∈ l, hQual a b = false := by
    intro a ha b hb
    have := (List.all_eq_true.mp ((List.all_eq_true.mp h) a ha)) b hb
    simpa using this
  have hs : ∀ a ∈ sortLe leXKey l, ∀ b ∈ sortLe leXKey l,
      hQual a b = false := fun a ha b hb =>
    h' a (mem_sortLe.mp ha) b (mem_sortLe.mp hb)
  exact hpassAux_id (sortLe leXKey l) hs

/-- C8 (amended): the horizontal merge pass is not idempotent in general
— a second pass can merge again (see the counterexample).  Whenever its
output contains no same-page non-table pair within the merge thresholds
(y within 3, x gap in `(0, 20]`), a second application makes no change
beyond re-sorting into the pass's own canonical `(page, y, x)` order. -/
theorem c8_hmerge_conditional_idempotence (xs : List Dim)
    (h : hQualFree (group_close_dimensions xs) = true) :
    group_close_dimensions (group_close_dimensions xs) =
      sortLe leXKey (group_close_dimensions xs) :=
  group_close_id (group_close_dimensions xs) h

/-- Four same-row candidates at `x = 0, 20, 22, 24`. -/
def exRun4 : List Dim :=
  [⟨0, "A", 0, 0, false⟩, ⟨0, "B", 20, 0, false⟩,
   ⟨0, "C", 22, 0, false⟩, ⟨0, "D", 24, 0, false⟩]

/-- C8 counterexample: on the row `x = 0, 20, 22, 24` the first pass
produces two merged entries centred at `x = 10` and `x = 23` (gap 13),
which a second pass merges again — so the output sizes differ and the
pass is not idempotent even up to reordering. -/
theorem c8_hmerge_counterexample :
    (group_close_dimensions exRun4).length = 2 ∧
    (group_close_dimensions (group_close_dimensions exRun4)).length = 1 := by
  norm_num [group_close_dimensions, sortLe, insertLe, leXKey, hpassAux,
    bestScan, markAt, hMerge, hQual, exRun4]

/-- Two far-apart candidates: no pair qualifies. -/
def exFar : List Dim :=
  [⟨0, "1.00", 0, 0, false⟩, ⟨0, "2.00", 100, 0, false⟩]

/-- Witness for C8 (amended): on a merge-free output the second pass only
re-sorts. -/
theorem c8_hmerge_conditional_idempotence_witness :
    group_close_dimensions (group_close_dimensions exFar) =
      sortLe leXKey (group_close_dimensions exFar) :=
  c8_hmerge_conditional_idempotence exFar (by
    norm_num [hQualFree, group_close_dimensions, sortLe, insertLe, leXKey,
      hpassAux, bestScan, hQual, exFar])

theorem markDups_map_snd (a : Dim) :
    ∀ l : List (Bool × Dim), (markDups a l).map Prod.snd = l.map Prod.snd := by
  intro l
  induction l with
  | nil => rfl
  | cons p rest ih =>
    obtain ⟨u, b⟩ := p
    simp only [markDups]
    split
    · rfl
    · split
      · simpa using ih
      · split
        · simpa using ih
        · simpa using ih

theorem markDups_length (a : Dim) (l : List (Bool × Dim)) :
    (markDups a l).length = l.length := by
  have := congrArg List.length (markDups_map_snd a l)
  simpa using this

theorem rdupAux_sublist :
    ∀ fuel (l : List (Bool × Dim)),
      List.Sublist (rdupAux fuel l) (l.map Prod.snd) := by
  intro fuel
  induction fuel with
  | zero =>
    intro l
    cases l with
    | nil => exact List.nil_sublist _
    | cons p rest => exact List.nil_sublist _
  | succ n ih =>
    intro l
    cases l with
    | nil => exact List.nil_sublist _
    | cons p rest =>
      obtain ⟨u, b⟩ := p
      cases u with
      | true => exact (ih rest).cons b
      | false =>
        have h2 := ih (markDups b rest)
        rw [markDups_map_snd] at h2
        exact h2.cons₂ b

theorem rdup_sublist_sorted (xs : List Dim) :
    List.Sublist (remove_vertical_close_duplicates xs)
      (sortLe leYKey xs) := by
  have h := rdupAux_sublist
    ((sortLe leYKey xs).map (fun d => (false, d))).length
    ((sortLe leYKey xs).map (fun d => (false, d)))
  simpa [List.map_map, Function.comp, remove_vertical_close_duplicates]
    using h

theorem leYKey_total (a b : Dim) : leYKey a b = true ∨ leYKey b a = true := by
  unfold leYKey
  simp only [Bool.or_eq_true, Bool.and_eq_true, decide_eq_true_eq,
    beq_iff_eq]
  rcases Nat.lt_trichotomy a.page b.page with h | h | h
  · left; left; exact h
  · rcases le_total a.y b.y with hy | hy
    · left; right; exact ⟨h, hy⟩
    · right; right; exact ⟨h.symm, hy⟩
  · right; left; exact h

theorem leYKey_trans {a b c : Dim} (h1 : leYKey a b = true)
    (h2 : leYKey b c = true) : leYKey a c = true := by
  unfold leYKey at h1 h2 ⊢
  simp only [Bool.or_eq_true, Bool.and_eq_true, decide_eq_true_eq,
    beq_iff_eq] at h1 h2 ⊢
  rcases h1 with h1 | ⟨e1, y1⟩ <;> rcases h2 with h2 | ⟨e2, y2⟩
  · left; omega
  · left; omega
  · left; omega
  · right; exact ⟨e1.trans e2, y1.trans y2⟩

theorem pairwise_insertLe {le : Dim → Dim → Bool}
    (htot : ∀ a b, le a b = true ∨ le b a = true)
    (htrans : ∀ {a b c}, le a b = true → le b c = true → le a c = true)
    (a : Dim) : ∀ {l}, List.Pairwise (fun x y => le x y = true) l →
      List.Pairwise (fun x y => le x y = true) (insertLe le a l) := by
  intro l
  induction l with
  | nil =>
    intro _
    simp [insertLe]
  | cons b t ih =>
    intro hp
    rcases List.pairwise_cons.mp hp with ⟨hb, ht⟩
    simp only [insertLe]
    split
    · rename_i hab
      refine List.pairwise_cons.mpr ⟨?_, hp⟩
      intro y hy
      rcases List.mem_cons.mp hy with rfl | hyt
      · exact hab
      · exact htrans hab (hb y hyt)
    · rename_i hab
      have hba : le b a = true := (htot a b).resolve_left hab
      refine List.pairwise_cons.mpr ⟨?_, ih ht⟩
      intro y hy
      rw [(insertLe_perm le a t).mem_iff] at hy
      rcases List.mem_cons.mp hy with rfl | hyt
      · exact hba
      · exact hb y hyt

theorem pairwise_sortLe {le : Dim → Dim → Bool}
    (htot : ∀ a b, le a b = true ∨ le b a = true)
    (htrans : ∀ {a b c}, le a b = true → le b c = true → le a c = true) :
    ∀ l, List.Pairwise (fun x y => le x y = true) (sortLe le l) := by
  intro l
  induction l with
  | nil => exact List.Pairwise.nil
  | cons a t ih => exact pairwise_insertLe htot htrans a ih

/-- C9: duplicate suppression only drops items and never edits survivors —
its output is a subsequence (`List.Sublist`) of the input as sorted by
`(page, y)`, every surviving item is field-for-field one of the original
input items, and the output itself is `(page, y)`-sorted. -/
theorem c9_dedup_is_sublist (xs : List Dim) :
    List.Sublist (remove_vertical_close_duplicates xs)
      (sortLe leYKey xs) ∧
    (∀ a ∈ remove_vertical_close_duplicates xs, a ∈ xs) ∧
    List.Pairwise (fun a b => leYKey a b = true)
      (remove_vertical_close_duplicates xs) := by
  have hsub := rdup_sublist_sorted xs
  refine ⟨hsub, ?_, ?_⟩
  · intro a ha
    exact mem_sortLe.mp (hsub.subset ha)
  · exact (pairwise_sortLe leYKey_total leYKey_trans xs).sublist hsub

/-- Two near-duplicate candidates (y within 6, x within 10). -/
def exDup : List Dim :=
  [⟨0, "1.00", 100, 50, false⟩, ⟨0, "1.00", 105, 52, false⟩]

/-- Witness for C9: on the near-duplicate pair the surviving entry is
field-for-field an item of the original input. -/
theorem c9_dedup_is_sublist_witness :
    (⟨0, "1.00", 100, 50, false⟩ : Dim) ∈ exDup :=
  (c9_dedup_is_sublist exDup).2.1 _ (by
    norm_num [remove_vertical_close_duplicates, sortLe, insertLe, leYKey,
      rdupAux, markDups, VERTICAL_Y_TOLERANCE, MERGE_X_THRESHOLD, exDup])

/-! ## Balloon placer (`balloon_pdf`, `draw_single_balloon`,
`add_manual_balloon`)

Coordinates are rationals.  The fixed angle ring `0°, 30°, −30°, …` of the
source yields, per angle, the offset vector `(26·cos θ, 26·sin θ)`; since
cosine and sine are irrational we keep the ring of offset vectors as a
parameter and instantiate it with concrete rational vectors in witnesses.
The separation test `math.hypot(bx−ux, by−uy) ≥ 22` is stated on squared
distances, which is equivalent for nonnegative quantities. -/

/-- A point of the page plane. -/
structure PtQ where
  x : ℚ
  y : ℚ
deriving DecidableEq

/-- The radial offset of a balloon center from its anchor. -/
def OFFSET : ℚ := 26

/-- The minimum-separation test against one used position. -/
def sepOK (c u : PtQ) : Bool :=
  decide ((484 : ℚ) ≤ (c.x - u.x) ^ 2 + (c.y - u.y) ^ 2)

/-- `max(15, min(v, limit - 15))` — the edge clamp of the source. -/
def clamp15 (limit v : ℚ) : ℚ := max 15 (min v (limit - 15))

/-- One placement: rotate the ring by `idx % len(ring)`, take the first
candidate separated from every used position (fall back to the un-rotated
first candidate `(tx + 26, ty)` if none qualifies), then clamp into the
page interior. -/
def placeCenter (ring : List PtQ) (idx : Nat) (t : PtQ) (used : List PtQ)
    (pw ph : ℚ) : PtQ :=
  let start := idx % ring.length
  let rotated := ring.drop start ++ ring.take start
  let cands := rotated.map (fun o => PtQ.mk (t.x + o.x) (t.y + o.y))
  let best := (cands.find? (fun c => used.all (fun u => sepOK c u))).getD
    ⟨t.x + OFFSET, t.y⟩
  ⟨clamp15 pw best.x, clamp15 ph best.y⟩

/-- `USED_POSITIONS`: page number ↦ accepted centers, oldest first. -/
abbrev UsedMap := Nat → List PtQ

/-- Append `c` to the page `p` entry of the used-positions map. -/
def updUsed (m : UsedMap) (p : Nat) (c : PtQ) : UsedMap :=
  fun q => if q = p then m p ++ [c] else m q

/-- An anchor item handed to `balloon_pdf` (page, anchor x, anchor y). -/
structure BItem where
  page : Nat
  x : ℚ
  y : ℚ
deriving DecidableEq

/-- One emitted balloon mark: its label number, page and drawn center. -/
structure Mark where
  index : Nat
  page : Nat
  center : PtQ

/-- The loop of `balloon_pdf`: place every item in order, numbering from
`idx` and threading `USED_POSITIONS`. -/
def balloonGo (ring : List PtQ) (dims : Nat → ℚ × ℚ) :
    List BItem → Nat → UsedMap → List Mark × UsedMap
  | [], _, used => ([], used)
  | it :: rest, idx, used =>
    let pw := (dims it.page).1
    let ph := (dims it.page).2
    let c := placeCenter ring idx ⟨it.x, it.y⟩ (used it.page) pw ph
    let used' := updUsed used it.page c
    let r := balloonGo ring dims rest (idx + 1) used'
    (⟨idx, it.page, c⟩ :: r.1, r.2)

/-- `balloon_pdf`: reset `USED_POSITIONS` and place the supplied ordered
items with indices 1, 2, 3, …. -/
def balloon_pdf (ring : List PtQ) (dims : Nat → ℚ × ℚ)
    (items : List BItem) : List Mark × UsedMap :=
  balloonGo ring dims items 1 (fun _ => [])

/-- `draw_single_balloon`: the same placement without ring rotation
(the source duplicates the procedure with the angle list un-rotated,
which is the `idx = 0` rotation). -/
def draw_single_balloon (ring : List PtQ) (t : PtQ) (used : List PtQ)
    (pw ph : ℚ) : PtQ :=
  placeCenter ring 0 t used pw ph

/-- `add_manual_balloon`: fail if `ballooned.pdf` is missing; otherwise
convert the percent coordinates to page coordinates, run the rotated-ring
placement against the live `USED_POSITIONS` of the page, append the
clamped center, and answer the caller-supplied index.  The handler never
validates the anchor. -/
def add_manual_balloon (ring : List PtQ) (dims : Nat → ℚ × ℚ)
    (docExists : Bool) (used : UsedMap) (xpct ypct : ℚ)
    (pageNo idx : Nat) : Except String (Nat × UsedMap) :=
  if !docExists then .error "ballooned.pdf not found"
  else
    let pw := (dims pageNo).1
    let ph := (dims pageNo).2
    let c := placeCenter ring idx ⟨xpct * pw, ypct * ph⟩ (used pageNo) pw ph
    .ok (idx, updUsed used pageNo c)

/-- The index reported by a manual-balloon response. -/
def manualIndex (r : Except String (Nat × UsedMap)) : Option Nat :=
  r.toOption.map Prod.fst

/-- The number of used positions of page `p` after a manual addition. -/
def manualUsedLen (r : Except String (Nat × UsedMap)) (p : Nat) : Nat :=
  match r with
  | .ok (_, u) => (u p).length
  | .error _ => 0

/-- The accepted center lies in `[15, pw-15] × [15, ph-15]`. -/
def centerInBounds (pw ph : ℚ) (c : PtQ) : Prop :=
  15 ≤ c.x ∧ c.x ≤ pw - 15 ∧ 15 ≤ c.y ∧ c.y ≤ ph - 15

theorem clamp15_bounds {limit : ℚ} (h : 30 ≤ limit) (v : ℚ) :
    15 ≤ clamp15 limit v ∧ clamp15 limit v ≤ limit - 15 := by
  unfold clamp15
  refine ⟨le_max_left _ _, max_le (by linarith) (min_le_right _ _)⟩

theorem placeCenter_bounds (ring : List PtQ) (idx : Nat) (t : PtQ)
    (used : List PtQ) {pw ph : ℚ} (hw : 30 ≤ pw) (hh : 30 ≤ ph) :
    centerInBounds pw ph (placeCenter ring idx t used pw ph) := by
  unfold placeCenter
  exact ⟨(clamp15_bounds hw _).1, (clamp15_bounds hw _).2,
         (clamp15_bounds hh _).1, (clamp15_bounds hh _).2⟩

theorem balloonGo_marks_bounds (ring : List PtQ) (dims : Nat → ℚ × ℚ) :
    ∀ (items : List BItem) (idx : Nat) (used : UsedMap),
      ∀ m ∈ (balloonGo ring dims items idx used).1,
        30 ≤ (dims m.page).1 → 30 ≤ (dims m.page).2 →
        centerInBounds (dims m.page).1 (dims m.page).2 m.center := by
  intro items
  induction items with
  | nil =>
    intro idx used m hm
    simp [balloonGo] at hm
  | cons it rest ih =>
    intro idx used m hm
    simp only [balloonGo] at hm
    rcases List.mem_cons.mp hm with rfl | hm'
    · intro hw hh
      exact placeCenter_bounds _ _ _ _ hw hh
    · exact ih _ _ m hm'

/-- Every center recorded in the used-positions map is in bounds on
every page whose dimensions are at least 30. -/
def goodUsed (dims : Nat → ℚ × ℚ) (used : UsedMap) : Prop :=
  ∀ p c, c ∈ used p → 30 ≤ (dims p).1 → 30 ≤ (dims p).2 →
    centerInBounds (dims p).1 (dims p).2 c

theorem goodUsed_upd {dims : Nat → ℚ × ℚ} {used : UsedMap}
    (h : goodUsed dims used) (p0 : Nat) (c0 : PtQ)
    (hc0 : 30 ≤ (dims p0).1 → 30 ≤ (dims p0).2 →
      centerInBounds (dims p0).1 (dims p0).2 c0) :
    goodUsed dims (updUsed used p0 c0) := by
  intro p c hc hw hh
  by_cases hq : p = p0
  · subst hq
    simp only [updUsed, if_pos rfl] at hc
    rcases List.mem_append.mp hc with h1 | h2
    · exact h p c h1 hw hh
    · have : c = c0 := by simpa using h2
      subst this
      exact hc0 hw hh
  · simp only [updUsed, if_neg hq] at hc
    exact h p c hc hw hh

theorem balloonGo_used_bounds (ring : List PtQ) (dims : Nat → ℚ × ℚ) :
    ∀ (items : List BItem) (idx : Nat) (used : UsedMap),
      goodUsed dims used →
      goodUsed dims (balloonGo ring dims items idx used).2 := by
  intro items
  induction items with
  | nil => intro idx used h; exact h
  | cons it rest ih =>
    intro idx used h
    exact ih _ _ (goodUsed_upd h it.page _
      (fun hw hh => placeCenter_bounds _ _ _ _ hw hh))

/-- C6: every center accepted by the balloon placer — ring-chosen or
ring-exhausted fallback — lies within `[15, pw−15] × [15, ph−15]` on a
page with `pw, ph ≥ 30`, both as recorded in `PlacementState`
(`USED_POSITIONS`) and as drawn on the emitted marks, and likewise for
`draw_single_balloon`. -/
theorem c6_placement_bounds (ring : List PtQ) (dims : Nat → ℚ × ℚ)
    (items : List BItem) (p : Nat)
    (hw : 30 ≤ (dims p).1) (hh : 30 ≤ (dims p).2) :
    (∀ m ∈ (balloon_pdf ring dims items).1, m.page = p →
      centerInBounds (dims p).1 (dims p).2 m.center) ∧
    (∀ c ∈ (balloon_pdf ring dims items).2 p,
      centerInBounds (dims p).1 (dims p).2 c) ∧
    ∀ t used, centerInBounds (dims p).1 (dims p).2
      (draw_single_balloon ring t used (dims p).1 (dims p).2) := by
  refine ⟨?_, ?_, ?_⟩
  · intro m hm hpage
    subst hpage
    exact balloonGo_marks_bounds ring dims items 1 _ m hm hw hh
  · intro c hc
    refine balloonGo_used_bounds ring dims items 1 (fun _ => [])
      ?_ p c hc hw hh
    intro q d hd
    exact absurd hd (List.not_mem_nil d)
  · intro t used
    exact placeCenter_bounds ring 0 t used hw hh

/-- A concrete rational instantiation of the angle ring's offset vectors
(first entry on the positive x-axis, as the `0°` angle of the source). -/
def ring0 : List PtQ :=
  [⟨26, 0⟩, ⟨22, 13⟩, ⟨22, -13⟩, ⟨18, 18⟩, ⟨18, -18⟩,
   ⟨13, 22⟩, ⟨13, -22⟩, ⟨0, 26⟩, ⟨0, -26⟩]

/-- A document whose every page is 100 × 100. -/
def dims0 : Nat → ℚ × ℚ := fun _ => (100, 100)

/-- One anchor in the middle of page 0. -/
def items1 : List BItem := [⟨0, 50, 50⟩]

/-- Three well-separated anchors on page 0. -/
def items3 : List BItem := [⟨0, 50, 50⟩, ⟨0, 200, 50⟩, ⟨0, 350, 50⟩]

/-- Witness for C6: the single accepted center of a concrete pass on a
100 × 100 page lies inside `[15, 85] × [15, 85]`. -/
theorem c6_placement_bounds_witness : centerInBounds 100 100 ⟨72, 63⟩ :=
  (c6_placement_bounds ring0 dims0 items1 0 (by norm_num [dims0])
    (by norm_num [dims0])).2.1 ⟨72, 63⟩ (by
      norm_num [balloon_pdf, balloonGo, placeCenter, updUsed, sepOK,
        clamp15, OFFSET, ring0, dims0, items1, List.find?, min_def,
        max_def])

theorem balloonGo_indices (ring : List PtQ) (dims : Nat → ℚ × ℚ) :
    ∀ (items : List BItem) (idx : Nat) (used : UsedMap),
      (balloonGo ring dims items idx used).1.map Mark.index =
        List.range' idx items.length := by
  intro items
  induction items with
  | nil => intro idx used; rfl
  | cons it rest ih =>
    intro idx used
    simp only [balloonGo, List.map_cons, List.length_cons]
    rw [ih]
    rfl

/-- C3 (amended): a full pass numbers its marks `1, 2, …, n` in the order
of the supplied list (so full-pass indices are unique and strictly
increasing), but a manual single addition emits exactly the
caller-supplied index — the server performs no prior-maximum-plus-one
computation, so the emitted index is whatever the caller sends. -/
theorem c3_index_policy (ring : List PtQ) (dims : Nat → ℚ × ℚ) :
    (∀ items, (balloon_pdf ring dims items).1.map Mark.index =
      List.range' 1 items.length) ∧
    (∀ used xpct ypct pageNo idx,
      manualIndex (add_manual_balloon ring dims true used xpct ypct
        pageNo idx) = some idx) :=
  ⟨fun items => balloonGo_indices ring dims items 1 _,
   fun _ _ _ _ _ => rfl⟩

/-- C3 counterexample: after a full pass over three items (indices
`1, 2, 3`, prior maximum 3) a manual addition supplying index 7 emits a
mark numbered 7, not `3 + 1` — refuting "the emitted index equals the
prior maximum plus one, regardless of what the caller supplies". -/
theorem c3_index_counterexample :
    (balloon_pdf ring0 dims0 items3).1.map Mark.index = [1, 2, 3] ∧
    manualIndex (add_manual_balloon ring0 dims0 true
      (balloon_pdf ring0 dims0 items3).2 (1/2) (1/2) 0 7) = some 7 ∧
    (7 : Nat) ≠ 3 + 1 :=
  ⟨rfl, rfl, by decide⟩

/-- C4 (amended): `add_manual_balloon` performs no anchor validation at
all: whenever the ballooned document exists, the request succeeds for
every supplied percent coordinate pair — finite in- or out-of-bounds —
and the placement procedure runs, appending exactly one center to the
page's `PlacementState` and answering the supplied index. -/
theorem c4_manual_balloon_never_rejects (ring : List PtQ)
    (dims : Nat → ℚ × ℚ) (used : UsedMap) (xpct ypct : ℚ)
    (pageNo idx : Nat) :
    manualIndex (add_manual_balloon ring dims true used xpct ypct
      pageNo idx) = some idx ∧
    manualUsedLen (add_manual_balloon ring dims true used xpct ypct
      pageNo idx) pageNo = (used pageNo).length + 1 := by
  refine ⟨rfl, ?_⟩
  simp [add_manual_balloon, manualUsedLen, updUsed]

/-- C4 counterexample: the anchor `(200, 200)` (percent coordinates 2, 2)
is far outside the 100 × 100 page, yet the manual addition succeeds and a
center is appended — the operation does not fail with
`InvalidAnchorError` before placement. -/
theorem c4_anchor_counterexample :
    manualIndex (add_manual_balloon ring0 dims0 true (fun _ => [])
      2 2 0 1) = some 1 ∧
    manualUsedLen (add_manual_balloon ring0 dims0 true (fun _ => [])
      2 2 0 1) 0 = 1 := by
  refine ⟨rfl, ?_⟩
  simp [add_manual_balloon, manualUsedLen, updUsed]

/-! ## Tolerance parser (`extract_tolerances`)

The four regex patterns of the source are modelled as hand-written
leftmost-search parsers.  Each pattern starts with a literal
(`FRACTIONAL`, `ONE`, `TWO`, `THREE`), so `re.search` succeeds exactly at
the first literal occurrence whose tail parse succeeds; within a match the
pieces (`\s`-runs, the optional colon-or-hyphen separator, the optional
`PL.`-or-`PL`-or-`PLACE` group, the greedy captures) are deterministic
maximal-munch apart from the group, whose regex alternation priority
`PL.`, `PL`, `PLACE`, empty is tried in that order with the continuation.
Python `float` values are modelled as exact rationals; a conversion that
would raise (`float` of a malformed string, division by zero) makes the
whole extraction return `none`. -/

/-- Python regex whitespace, as in the source's patterns. -/
def isPySpace (c : Char) : Bool :=
  c = ' ' || c = '\t' || c = '\n' || c = '\r' || c = '\x0b' || c = '\x0c'

/-- Maximal-munch whitespace skip. -/
def skipSpaces (s : List Char) : List Char := s.dropWhile isPySpace

/-- The optional colon-or-hyphen separator of every pattern. -/
def dropSep (s : List Char) : List Char :=
  match s with
  | ':' :: rest => rest
  | '-' :: rest => rest
  | _ => s

/-- Decimal digits to a natural number. -/
def digitsToNat (ds : List Char) : Nat :=
  ds.foldl (fun n c => 10 * n + (c.toNat - 48)) 0

/-- Greedy nonempty digit run. -/
def parseNat (s : List Char) : Option (Nat × List Char) :=
  let ds := s.takeWhile Char.isDigit
  if ds.isEmpty then none
  else some (digitsToNat ds, s.dropWhile Char.isDigit)

/-- The tail of the `FRACTIONAL` pattern: spaces, optional separator,
spaces, digits, spaces, slash, spaces, digits. -/
def parseFracTail (s : List Char) : Option (Nat × Nat) :=
  let s2 := skipSpaces (dropSep (skipSpaces s))
  match parseNat s2 with
  | none => none
  | some (a, s3) =>
    match skipSpaces s3 with
    | '/' :: s4 =>
      match parseNat (skipSpaces s4) with
      | none => none
      | some (b, _) => some (a, b)
    | _ => none

/-- `re.search`: try the pattern at every start position, leftmost first
(the empty suffix included). -/
def searchFrom {α : Type} (p : List Char → Option α) : List Char → Option α
  | [] => p []
  | c :: rest =>
    match p (c :: rest) with
    | some v => some v
    | none => searchFrom p rest

/-- The `FRACTIONAL` pattern anchored at the current position. -/
def fracAt (s : List Char) : Option (Nat × Nat) :=
  if ("FRACTIONAL".toList).isPrefixOf s then parseFracTail (s.drop 10)
  else none

/-- May `c` appear in the value capture?  `ONE`'s capture admits digits,
dots and slashes; `TWO`'s and `THREE`'s admit only digits and dots. -/
def capChar (slash : Bool) (c : Char) : Bool :=
  c.isDigit || c = '.' || (slash && c = '/')

/-- After the optional group: spaces, literal `DECIMAL`, spaces, optional
separator, spaces, then the greedy nonempty capture. -/
def decTailAfterGroup (slash : Bool) (s : List Char) : Option (List Char) :=
  let s1 := skipSpaces s
  if ("DECIMAL".toList).isPrefixOf s1 then
    let s3 := skipSpaces (dropSep (skipSpaces (s1.drop 7)))
    let cap := s3.takeWhile (capChar slash)
    if cap.isEmpty then none else some cap
  else none

/-- The optional group in regex alternation priority: `PL.`, `PL`,
`PLACE`, then nothing, each followed by the continuation. -/
def decGroupAlts (slash : Bool) (s : List Char) : Option (List Char) :=
  match (if ("PL.".toList).isPrefixOf s then
      decTailAfterGroup slash (s.drop 3) else none) with
  | some v => some v
  | none =>
    match (if ("PL".toList).isPrefixOf s then
        decTailAfterGroup slash (s.drop 2) else none) with
    | some v => some v
    | none =>
      match (if ("PLACE".toList).isPrefixOf s then
          decTailAfterGroup slash (s.drop 5) else none) with
      | some v => some v
      | none => decTailAfterGroup slash s

/-- After the class literal: at least one space, then the optional group
and its continuation. -/
def decTail (slash : Bool) (s : List Char) : Option (List Char) :=
  if (s.takeWhile isPySpace).isEmpty then none
  else decGroupAlts slash (s.dropWhile isPySpace)

/-- A decimal-class pattern anchored at the current position. -/
def decAt (lit : String) (slash : Bool) (s : List Char) :
    Option (List Char) :=
  if lit.toList.isPrefixOf s then decTail slash (s.drop lit.toList.length)
  else none

/-- Python `str.split(sep)` on character lists. -/
def splitOnChar (sep : Char) : List Char → List (List Char)
  | [] => [[]]
  | c :: rest =>
    let r := splitOnChar sep rest
    if c = sep then [] :: r
    else
      match r with
      | h :: t => (c :: h) :: t
      | [] => [[c]]

/-- Python `float` on a digits-and-dots string, as an exact rational;
`none` models the `ValueError` of a malformed string. -/
def parseFloat (s : List Char) : Option ℚ :=
  if s.all (fun c => c.isDigit || c = '.') then
    match splitOnChar '.' s with
    | [ip] => if ip.isEmpty then none else some (digitsToNat ip : ℚ)
    | [ip, fp] =>
      if ip.isEmpty && fp.isEmpty then none
      else some ((digitsToNat ip : ℚ) +
        (digitsToNat fp : ℚ) / ((10 : ℚ) ^ fp.length))
    | _ => none
  else none

/-- The `ONE … DECIMAL` conversion: split the capture on the slash and
divide, or parse it as a plain float. -/
def convertCapture (cap : List Char) : Option ℚ :=
  if cap.contains '/' then
    match splitOnChar '/' cap with
    | p0 :: p1 :: _ =>
      match parseFloat p0, parseFloat p1 with
      | some a, some b => if b = 0 then none else some (a / b)
      | _, _ => none
    | _ => none
  else parseFloat cap

/-- Substring containment (`"TOLERANCE" in text`). -/
def containsSub (pat : List Char) : List Char → Bool
  | [] => pat.isPrefixOf []
  | c :: rest => pat.isPrefixOf (c :: rest) || containsSub pat rest

/-- The page scan of `extract_tolerances`: the first page whose uppercased
text contains `TOLERANCE` wins; with no such page the text is empty. -/
def findToleranceText : List (List Char) → List Char
  | [] => []
  | p :: rest =>
    let t := pyUpper p
    if containsSub ("TOLERANCE".toList) t then t
    else findToleranceText rest

/-- The parsed tolerance classes; an absent class is `none`. -/
structure Tolerances where
  fractional : Option ℚ
  one_decimal : Option ℚ
  two_decimal : Option ℚ
  three_decimal : Option ℚ
deriving DecidableEq

/-- The `FRACTIONAL` entry: the pattern only ever captures a
numerator/denominator pair, converted by division. -/
def matchFractional (t : List Char) : Option (Option ℚ) :=
  match searchFrom fracAt t with
  | none => some none
  | some (a, b) =>
    if b = 0 then none else some (some ((a : ℚ) / (b : ℚ)))

/-- A decimal-class entry converted with fraction support (`ONE`). -/
def matchDecimalFrac (lit : String) (t : List Char) : Option (Option ℚ) :=
  match searchFrom (decAt lit true) t with
  | none => some none
  | some cap =>
    match convertCapture cap with
    | none => none
    | some v => some (some v)

/-- A decimal-class entry converted as a plain float (`TWO`, `THREE`). -/
def matchDecimalPlain (lit : String) (t : List Char) : Option (Option ℚ) :=
  match searchFrom (decAt lit false) t with
  | none => some none
  | some cap =>
    match parseFloat cap with
    | none => none
    | some v => some (some v)

/-- The four pattern applications of `extract_tolerances` against the
chosen page text. -/
def extractFromText (t : List Char) : Option Tolerances := do
  let f ← matchFractional t
  let o ← matchDecimalFrac "ONE" t
  let tw ← matchDecimalPlain "TWO" t
  let th ← matchDecimalPlain "THREE" t
  pure ⟨f, o, tw, th⟩

/-- `extract_tolerances` over the list of page texts; `none` models an
uncaught conversion exception. -/
def extract_tolerances (pages : List (List Char)) : Option Tolerances :=
  extractFromText (findToleranceText pages)

theorem findToleranceText_eq_nil {pages : List (List Char)}
    (h : ∀ p ∈ pages,
      containsSub ("TOLERANCE".toList) (pyUpper p) = false) :
    findToleranceText pages = [] := by
  induction pages with
  | nil => rfl
  | cons p rest ih =>
    have hp := h p (List.mem_cons_self _ _)
    simp only [findToleranceText, hp, Bool.false_eq_true, if_false]
    exact ih (fun q hq => h q (List.mem_cons_of_mem _ hq))

theorem findToleranceText_append {xs : List (List Char)} (p : List Char)
    (ys : List (List Char))
    (hxs : ∀ q ∈ xs, containsSub ("TOLERANCE".toList) (pyUpper q) = false)
    (hp : containsSub ("TOLERANCE".toList) (pyUpper p) = true) :
    findToleranceText (xs ++ p :: ys) = pyUpper p := by
  induction xs with
  | nil => simp only [List.nil_append, findToleranceText, hp, if_true]
  | cons q rest ih =>
    have hq := hxs q (List.mem_cons_self _ _)
    simp only [List.cons_append, findToleranceText, hq,
      Bool.false_eq_true, if_false]
    exact ih (fun r hr => hxs r (List.mem_cons_of_mem _ hr))

/-- C10: if no page's uppercased text contains the marker `TOLERANCE`,
the parser returns the empty mapping (no classes, no defaults, no raise);
and the scan stops at the first marker page — the result depends only on
that page, never on later ones. -/
theorem c10_marker_scan :
    (∀ pages, (∀ p ∈ pages,
        containsSub ("TOLERANCE".toList) (pyUpper p) = false) →
      extract_tolerances pages = some ⟨none, none, none, none⟩) ∧
    (∀ xs (p : List Char) ys,
      (∀ q ∈ xs, containsSub ("TOLERANCE".toList) (pyUpper q) = false) →
      containsSub ("TOLERANCE".toList) (pyUpper p) = true →
      extract_tolerances (xs ++ p :: ys) = extractFromText (pyUpper p)) := by
  constructor
  · intro pages h
    unfold extract_tolerances
    rw [findToleranceText_eq_nil h]
    rfl
  · intro xs p ys hxs hp
    unfold extract_tolerances
    rw [findToleranceText_append p ys hxs hp]

/-- Witness for C10: a two-page document with no marker yields the empty
mapping; with a marker on the second page the result equals the parse of
that page alone, the third page notwithstanding. -/
theorem c10_marker_scan_witness :
    extract_tolerances ["NOTES".toList, "SHEET 2".toList] =
      some ⟨none, none, none, none⟩ ∧
    extract_tolerances ["NOTES".toList,
        "TOLERANCE FRACTIONAL: 1/64".toList,
        "TOLERANCE TWO PL. DECIMAL: 0.01".toList] =
      extractFromText (pyUpper ("TOLERANCE FRACTIONAL: 1/64".toList)) :=
  ⟨c10_marker_scan.1 ["NOTES".toList, "SHEET 2".toList] (by decide),
   c10_marker_scan.2 ["NOTES".toList] ("TOLERANCE FRACTIONAL: 1/64".toList)
     ["TOLERANCE TWO PL. DECIMAL: 0.01".toList] (by decide) (by decide)⟩

/-- C7 counterexample: the claim says each class pattern captures either a
plain numeric value or a fraction, but the `FRACTIONAL` pattern demands a
slash — on `TOLERANCE FRACTIONAL: 0.5` no `FRACTIONAL` entry is produced
at all. -/
theorem c7_fractional_plain_counterexample :
    extract_tolerances ["TOLERANCE FRACTIONAL: 0.5".toList] =
      some ⟨none, none, none, none⟩ := by rfl

/-- C7 (amended): the class patterns differ.  `FRACTIONAL` captures only
`numerator/denominator` fractions (so `FRACTIONAL: 1/64` yields 1/64 =
0.015625); `ONE … DECIMAL` captures plain numerics or fractions with
fraction conversion; `TWO`/`THREE … DECIMAL` capture only plain numerics
— their capture stops at a slash, so `TWO PL. DECIMAL: 1/64` yields 1.0,
not 0.015625.  A class whose label is absent is omitted (no key, no
default). -/
theorem c7_tolerance_patterns_amended :
    extract_tolerances ["TOLERANCE FRACTIONAL: 1/64".toList] =
      some ⟨some (1/64), none, none, none⟩ ∧
    extract_tolerances ["TOLERANCE ONE PL. DECIMAL: 1/2".toList] =
      some ⟨none, some (1/2), none, none⟩ ∧
    extract_tolerances ["TOLERANCE TWO PL. DECIMAL: 0.01".toList] =
      some ⟨none, none, some (1/100), none⟩ ∧
    extract_tolerances ["TOLERANCE TWO PL. DECIMAL: 1/64".toList] =
      some ⟨none, none, some 1, none⟩ ∧
    extract_tolerances ["TOLERANCE THREE PL. DECIMAL: 0.005".toList] =
      some ⟨none, none, none, some (1/200)⟩ := by
  refine ⟨?_, ?_, ?_, ?_, ?_⟩
  · have h : extract_tolerances ["TOLERANCE FRACTIONAL: 1/64".toList] =
        some ⟨some (((1 : ℕ) : ℚ) / ((64 : ℕ) : ℚ)), none, none, none⟩ :=
      by rfl
    rw [h]
    norm_num
  · have h : extract_tolerances ["TOLERANCE ONE PL. DECIMAL: 1/2".toList] =
        some ⟨none, some (((1 : ℕ) : ℚ) / ((2 : ℕ) : ℚ)), none, none⟩ :=
      by rfl
    rw [h]
    norm_num
  · have h : extract_tolerances
        ["TOLERANCE TWO PL. DECIMAL: 0.01".toList] =
        some ⟨none, none,
          some (((0 : ℕ) : ℚ) + ((1 : ℕ) : ℚ) / ((10 : ℚ) ^ (2 : ℕ))),
          none⟩ := by rfl
    rw [h]
    norm_num
  · have h : extract_tolerances
        ["TOLERANCE TWO PL. DECIMAL: 1/64".toList] =
        some ⟨none, none, some ((1 : ℕ) : ℚ), none⟩ := by rfl
    rw [h]
    norm_num
  · have h : extract_tolerances
        ["TOLERANCE THREE PL. DECIMAL: 0.005".toList] =
        some ⟨none, none, none,
          some (((0 : ℕ) : ℚ) + ((5 : ℕ) : ℚ) / ((10 : ℚ) ^ (3 : ℕ)))⟩ :=
      by rfl
    rw [h]
    norm_num
